import Mathlib

set_option maxRecDepth 8000

namespace BiliSplash

/-! Shallow embedding of `src/splash_downloader.py` (class
`SplashDownloader`) and of the retrying fetcher of
`src/getwallpaper.py` (class `WallpaperDownloader`).  Python strings
are Lean `String`s, Python bytes are `List Nat`, JSON values are the
inductive `Json`.  The ledger file is modelled by its list of appended
lines; the network is an oracle function passed as a parameter. -/

/-- JSON values as produced by `json.loads`.  Python `None` coming from
`dict.get` on a missing key is identified with `null`.  Object keys are
assumed unique, as `json.loads` guarantees. -/
inductive Json where
  | null : Json
  | bool : Bool → Json
  | num : Int → Json
  | str : String → Json
  | arr : List Json → Json
  | obj : List (String × Json) → Json

/-- Python `str.strip` default whitespace set (its ASCII part). -/
def isSpc (c : Char) : Bool :=
  c = ' ' || c = '\t' || c = '\n' || c = '\r' || c = '\x0b' || c = '\x0c'

def stripL (l : List Char) : List Char := l.dropWhile isSpc

def stripR (l : List Char) : List Char := (l.reverse.dropWhile isSpc).reverse

/-- Python `str.strip()`. -/
def pyStrip (s : String) : String := ⟨stripR (stripL s.data)⟩

/-- Split a list at the first occurrence of `d`: Python `s.split(d, 1)`
when the separator occurs (`none` when it does not). -/
def splitFirstAux (d : Char) : List Char → Option (List Char × List Char)
  | [] => none
  | c :: rest =>
    if c = d then some ([], rest)
    else
      match splitFirstAux d rest with
      | none => none
      | some (pre, post) => some (c :: pre, post)

def hexDigitU (n : Nat) : Char :=
  if n < 10 then Char.ofNat (48 + n) else Char.ofNat (55 + n)

/-- Characters `quote_plus` leaves unescaped with `safe=''` (the
`urlencode` default): ASCII alphanumerics and `_.-~`. -/
def safeChar (c : Char) : Bool := c.isAlphanum || c = '_' || c = '.' || c = '-' || c = '~'

/-- Python `urllib.parse.quote_plus` with `safe=''`.  Codepoints above
ASCII are escaped as one `%XX` of the codepoint; this agrees with
CPython on ASCII, the only range the pipeline produces. -/
def quotePlusL : List Char → List Char
  | [] => []
  | c :: rest =>
    (if c = ' ' then ['+']
     else if safeChar c then [c]
     else ['%', hexDigitU (c.toNat / 16 % 16), hexDigitU (c.toNat % 16)]) ++ quotePlusL rest

def quotePlus (s : String) : String := ⟨quotePlusL s.data⟩

def hexVal (c : Char) : Option Nat :=
  if '0' ≤ c ∧ c ≤ '9' then some (c.toNat - 48)
  else if 'A' ≤ c ∧ c ≤ 'F' then some (c.toNat - 55)
  else if 'a' ≤ c ∧ c ≤ 'f' then some (c.toNat - 87)
  else none

/-- Python `urllib.parse.unquote_plus`, at codepoint granularity. -/
def unquotePlusL : List Char → List Char
  | [] => []
  | '%' :: a :: b :: rest =>
    match hexVal a, hexVal b with
    | some x, some y => Char.ofNat (16 * x + y) :: unquotePlusL rest
    | _, _ => '%' :: unquotePlusL (a :: b :: rest)
  | '+' :: rest => ' ' :: unquotePlusL rest
  | c :: rest => c :: unquotePlusL rest

def unquotePlus (s : String) : String := ⟨unquotePlusL s.data⟩

/-- Python `str.split(sep)` for a one-character separator: `""` gives
`[""]`, a trailing separator yields a trailing empty field. -/
def splitAllAux (d : Char) : List Char → List Char → List (List Char)
  | [], acc => [acc.reverse]
  | c :: rest, acc =>
    if c = d then acc.reverse :: splitAllAux d rest []
    else splitAllAux d rest (c :: acc)

def splitAll (d : Char) (l : List Char) : List (List Char) := splitAllAux d l []

/-- Python `parse_qsl(qs)` with default `keep_blank_values=False`:
fields are split on `&`; a field without `=` or with an empty value is
dropped; names and values are `unquote_plus`-decoded. -/
def parseQsl (qs : String) : List (String × String) :=
  (splitAll '&' qs.data).filterMap fun field =>
    match splitFirstAux '=' field with
    | none => none
    | some (n, v) =>
      if v = [] then none else some (unquotePlus ⟨n⟩, unquotePlus ⟨v⟩)

def addQsPair (d : List (String × List String)) (k v : String) :
    List (String × List String) :=
  if d.any (fun e => e.1 = k) then
    d.map fun e => if e.1 = k then (e.1, e.2 ++ [v]) else e
  else d ++ [(k, [v])]

/-- Python `parse_qs(qs)`: group the `parse_qsl` pairs into an
insertion-ordered dict of value lists. -/
def parseQs (qs : String) : List (String × List String) :=
  (parseQsl qs).foldl (fun d p => addQsPair d p.1 p.2) []

/-- Python dict assignment `q[k] = v` on the insertion-ordered dict. -/
def dictSet (d : List (String × List String)) (k : String) (v : List String) :
    List (String × List String) :=
  if d.any (fun e => e.1 = k) then
    d.map fun e => if e.1 = k then (e.1, v) else e
  else d ++ [(k, v)]

def encodeFields (q : List (String × List String)) : List String :=
  q.foldr (fun kv acc => kv.2.map (fun v => quotePlus kv.1 ++ "=" ++ quotePlus v) ++ acc) []

/-- Python `'&'.join`. -/
def joinAmp : List String → String
  | [] => ""
  | f :: rest =>
    match rest with
    | [] => f
    | _ :: _ => f ++ "&" ++ joinAmp rest

/-- Python `urlencode(q, doseq=True)` on a dict of string lists. -/
def urlencodeSeq (q : List (String × List String)) : String := joinAmp (encodeFields q)

structure UrlParts where
  scheme : String
  netloc : String
  path : String
  query : String
  fragment : String
deriving DecidableEq

def schemeChar (c : Char) : Bool := c.isAlphanum || c = '+' || c = '-' || c = '.'

def netlocChar (c : Char) : Bool := c ≠ '/' && c ≠ '?' && c ≠ '#'

/-- Python `urlparse`, restricted to the components the downloader
uses.  `urlparse` additionally splits `;params` off the last path
segment and `urlunparse` glues them back with `;` unchanged, so the
model keeps them inside `path`: the composition used by the code is
identical. -/
def pyUrlsplit (url : String) : UrlParts :=
  let cs := url.data
  let sr :=
    match splitFirstAux ':' cs with
    | some (pre, post) =>
      if pre ≠ [] ∧ (pre.headD ' ').isAlpha ∧ pre.all schemeChar then
        (pre.map Char.toLower, post)
      else ([], cs)
    | none => ([], cs)
  let nr :=
    if sr.2.take 2 = ['/', '/'] then
      ((sr.2.drop 2).takeWhile netlocChar, (sr.2.drop 2).dropWhile netlocChar)
    else ([], sr.2)
  let rf :=
    match splitFirstAux '#' nr.2 with
    | some (a, b) => (a, b)
    | none => (nr.2, [])
  let pq :=
    match splitFirstAux '?' rf.1 with
    | some (a, b) => (a, b)
    | none => (rf.1, [])
  ⟨⟨sr.1⟩, ⟨nr.1⟩, ⟨pq.1⟩, ⟨pq.2⟩, ⟨rf.2⟩⟩

/-- The netloc and scheme stages of Python `urlunparse`: the first
successive reassignments of its `url` variable. -/
def unsplitBase (p : UrlParts) : String :=
  let url := p.path
  let url :=
    if p.netloc ≠ "" ∨ p.path.data.take 2 = ['/', '/'] then
      "//" ++ p.netloc ++ (if url ≠ "" ∧ url.data.take 1 ≠ ['/'] then "/" ++ url else url)
    else url
  if p.scheme ≠ "" then p.scheme ++ ":" ++ url else url

/-- ... then `if query: url = url + '?' + query` ... -/
def pyUrlunsplitQ (p : UrlParts) : String :=
  if p.query ≠ "" then unsplitBase p ++ "?" ++ p.query else unsplitBase p

/-- ... and `if fragment: url = url + '#' + fragment`: Python
`urlunparse` on the model's components. -/
def pyUrlunsplit (p : UrlParts) : String :=
  if p.fragment ≠ "" then pyUrlunsplitQ p ++ "#" ++ p.fragment else pyUrlunsplitQ p

/-- The re-encoded query of lines 310–311 of `_download_image`:
`parse_qs`, then `query["_"] = str(ms)`, then `urlencode(..., doseq)`. -/
def bustQuery (url : String) (ms : Nat) : String :=
  urlencodeSeq (dictSet (parseQs (pyUrlsplit url).query) "_" [toString ms])

/-- Lines 308–319 of `_download_image`: re-parse the URL, force the `_`
query parameter to the current epoch milliseconds, re-encode. -/
def cacheBust (url : String) (ms : Nat) : String :=
  pyUrlunsplit { pyUrlsplit url with query := bustQuery url ms }

/-- Observable state of one `SplashDownloader`: the in-memory URL set,
the file names in the output directory, the appended ledger lines, the
three counters, plus a ghost count of issued image HTTP requests. -/
structure DState where
  urlSet : List String
  store : List String
  ledger : List String
  downloaded : Nat
  skipped : Nat
  failed : Nat
  netCalls : Nat
deriving DecidableEq

def dInit : DState := ⟨[], [], [], 0, 0, 0, 0⟩

/-- One line of `splash_urls.txt` as consumed by the loop body of
`_load_url_set`: strip, skip empty, `hash|url` keeps the part after the
first bar (stripped), any other non-empty line is kept whole
(stripped). -/
def parseLedgerLine (line : String) : Option String :=
  if pyStrip line = "" then none
  else
    match splitFirstAux '|' (pyStrip line).data with
    | some (_, rest) => some (pyStrip ⟨rest⟩)
    | none => some (pyStrip (pyStrip line))

/-- `_load_url_set`: the membership content of the resulting set. -/
def loadUrlSet (lines : List String) : List String := lines.filterMap parseLedgerLine

def listPre : List Char → List Char → Bool
  | [], _ => true
  | _ :: _, [] => false
  | a :: as, b :: bs => a = b && listPre as bs

/-- The `output_dir.glob (hash ++ "_*")` membership test: `fnmatch`'s
`*` also matches the empty string, so a file matches exactly when its
name starts with the digest followed by the underscore. -/
def strStarts (p s : String) : Bool := listPre p.data s.data

inductive PyErr where
  | attributeError : PyErr
  | ioError : PyErr
deriving DecidableEq

/-- Body of `_save_url` before its `except` handler: first the file
append (which may raise, modelled by `appendOk = false`), then the
in-memory `url_set.add`.  An error carries the state reached so far. -/
def saveUrlBody (appendOk : Bool) (h u : String) (s : DState) :
    Except (PyErr × DState) DState :=
  if appendOk then
    let s1 : DState := { s with ledger := s.ledger ++ [h ++ "|" ++ u] }
    .ok { s1 with urlSet := s1.urlSet ++ [u] }
  else .error (.ioError, s)

/-- `_save_url`: the `except` clause logs and swallows the failure, so
the caller always receives a plain state. -/
def saveUrl (appendOk : Bool) (h u : String) (s : DState) : DState :=
  match saveUrlBody appendOk h u s with
  | .ok s' => s'
  | .error (_, s') => s'

/-- `_download_image`.  `net` is the CDN: `none` models any exception
out of `requests.get`/`raise_for_status`, `some body` the bytes of a
successful response.  `H` is the `sha256 hexdigest`.  `t` is the clock
read, used both for the cache-busting parameter and the file-name
timestamp.  File writes are modelled as succeeding; the ledger append
succeeds (`saveUrl true`). -/
def downloadImage (net : String → Option (List Nat)) (H : List Nat → String)
    (t : Nat) (url : String) (s : DState) : DState :=
  if url = "" ∨ url.length < 10 then s
  else if url ∈ s.urlSet then { s with skipped := s.skipped + 1 }
  else
    match net (cacheBust url t) with
    | none => { s with netCalls := s.netCalls + 1, failed := s.failed + 1 }
    | some body =>
      if s.store.any (fun f => strStarts (H body ++ "_") f) then
        saveUrl true (H body) (cacheBust url t)
          { s with netCalls := s.netCalls + 1, skipped := s.skipped + 1 }
      else
        saveUrl true (H body) (cacheBust url t)
          { s with netCalls := s.netCalls + 1,
                   store := s.store ++ [H body ++ "_" ++ toString t ++ "_splash.jpg"],
                   downloaded := s.downloaded + 1 }

def truthy : Json → Bool
  | .null => false
  | .bool b => b
  | .num n => n ≠ 0
  | .str s => s ≠ ""
  | .arr l => !l.isEmpty
  | .obj l => !l.isEmpty

def lookupKey : List (String × Json) → String → Option Json
  | [], _ => none
  | (k', v) :: rest, k => if k' = k then some v else lookupKey rest k

/-- Python `d.get(k, default)` where `d` may fail to be a dict
(`AttributeError` then — how line 239 behaves when `data` is a list). -/
def pyGetD (j : Json) (k : String) (d : Json) : Except PyErr Json :=
  match j with
  | .obj kvs => .ok ((lookupKey kvs k).getD d)
  | _ => .error .attributeError

/-- Python `api_data.get("code") != 0` (note `False == 0` in Python). -/
def pyNeZero : Option Json → Bool
  | some (.num 0) => false
  | some (.bool false) => false
  | _ => true

def firstArr : List Json → Option (List Json)
  | [] => none
  | .arr (x :: xs) :: _ => some (x :: xs)
  | _ :: rest => firstArr rest

/-- `_get_splash_items`: `.ok none` is Python `None`, `.ok (some l)` a
returned list (possibly empty, line 252), `.error` a raised lookup —
when `data` is a list, line 239's eager `.get("list")` raises before
the list-typed `data` entry of `possible_paths` can be used. -/
def getSplashItems (apiData : Json) : Except PyErr (Option (List Json)) :=
  match apiData with
  | .obj kvs =>
    if kvs.isEmpty then .ok none
    else if pyNeZero (lookupKey kvs "code") then .ok none
    else
      let dataJ := (lookupKey kvs "data").getD (.obj [])
      match pyGetD dataJ "list" (.arr []) with
      | .error e => .error e
      | .ok p1 =>
        match pyGetD dataJ "splash_list" (.arr []) with
        | .error e => .error e
        | .ok p2 =>
          let p3 := (lookupKey kvs "data").getD (.arr [])
          let p4 := (lookupKey kvs "list").getD (.arr [])
          let p5 := (lookupKey kvs "splash").getD (.arr [])
          let p6 := (lookupKey kvs "images").getD (.arr [])
          .ok (some ((firstArr [p1, p2, p3, p4, p5, p6]).getD []))
  | _ => .ok none

/-- `_fetch_splash_list` over the per-endpoint parsed responses
(`none` = request failed, non-200, or no JSON could be extracted).
A raised `AttributeError` propagates to `run`'s outer handler. -/
def fetchSplashList : List (Option Json) → Except PyErr (Option (List Json))
  | [] => .ok none
  | r :: rest =>
    match r with
    | none => fetchSplashList rest
    | some d =>
      if truthy d then
        match getSplashItems d with
        | .error e => .error e
        | .ok none => fetchSplashList rest
        | .ok (some l) => .ok (some l)
      else fetchSplashList rest

def imageFields : List String := ["thumb", "image", "url", "image_url", "splash", "cover"]

def firstImageField (kvs : List (String × Json)) : Option Json :=
  (imageFields.filterMap fun f =>
      match lookupKey kvs f with
      | some v => if truthy v then some v else none
      | none => none).head?

/-- The URL string an item contributes: the value of the first truthy
field among `imageFields`, when that value is a string. -/
def itemUrl : Json → Option String
  | .obj kvs =>
    match firstImageField kvs with
    | some (.str u) => some u
    | _ => none
  | _ => none

/-- One iteration of the `for item in splash_list` loop of `run`, its
per-item `except` included.  A non-dict item raises at `item.get` and
is only logged; a truthy non-string field value either returns early
from `_download_image` (short `len`) or raises `TypeError` at `len`/
`in`, also only logged — in all those cases the state is unchanged. -/
def processItem (net : String → Option (List Nat)) (H : List Nat → String)
    (t : Nat) (item : Json) (s : DState) : DState :=
  match itemUrl item with
  | some u => downloadImage net H t u s
  | none => s

/-- The descriptor loop of `run`, clock reads supplied by `ts`. -/
def runPass (net : String → Option (List Nat)) (H : List Nat → String) :
    List Nat → List Json → DState → DState
  | _, [], s => s
  | ts, item :: rest, s =>
    runPass net H ts.tail rest (processItem net H (ts.headD 0) item s)

/-- `run`: resolver, then the descriptor loop.  A raised resolver
exception or an all-endpoints `None` yields `success = false` with no
counter change; otherwise the loop runs and `success = true` even with
zero items. -/
def runModel (rs : List (Option Json)) (net : String → Option (List Nat))
    (H : List Nat → String) (ts : List Nat) (s : DState) : Bool × DState :=
  match fetchSplashList rs with
  | .error _ => (false, s)
  | .ok none => (false, s)
  | .ok (some items) => (true, runPass net H ts items s)

/-- `getwallpaper.py` constants (lines 41–42). -/
def MAX_RETRIES : Nat := 5

def RETRY_DELAY : Nat := 2

/-- Observable state of one `WallpaperDownloader` album directory:
existing files (name and bytes on disk, so that a truncated file is
representable), appended `urls.txt` lines, counters, a ghost count of
issued requests and the recorded `time.sleep` arguments. -/
structure WState where
  files : List (String × List Nat)
  urlLines : List String
  downloaded : Nat
  skipped : Nat
  failed : Nat
  attempts : Nat
  sleeps : List Nat
deriving DecidableEq

def wInit : WState := ⟨[], [], 0, 0, 0, 0, []⟩

/-- `os.path.basename(urlparse(url).path)`. -/
def wImageName (url : String) : String :=
  ⟨((pyUrlsplit url).path.data.reverse.takeWhile (fun c => c ≠ '/')).reverse⟩

/-- Outcome of one attempt of the streaming download
(`requests.get(..., stream=True)` followed by chunked writing):
`reqErr` is an exception out of `requests.get`/`raise_for_status`,
raised before `open(save_path, "wb")` — no file is touched;
`bodyErr chunks` is a transport error inside the `iter_content` loop,
raised after the file was opened and `chunks` were written — the
truncated file stays on disk, since the code has no cleanup;
`ok body` is a complete download. -/
inductive WFetch where
  | reqErr : WFetch
  | bodyErr : List Nat → WFetch
  | ok : List Nat → WFetch
deriving DecidableEq

/-- `open(save_path, "wb")` then writing `bytes`: creates the file, or
truncates and overwrites an existing file of the same name. -/
def setFile (files : List (String × List Nat)) (name : String)
    (bytes : List Nat) : List (String × List Nat) :=
  if files.any (fun e => e.1 = name) then
    files.map fun e => if e.1 = name then (name, bytes) else e
  else files ++ [(name, bytes)]

/-- The `for attempt in range(MAX_RETRIES)` loop of
`WallpaperDownloader._download_image`: `net i` is attempt `i`'s
outcome; on any failure the `except` block sleeps
`RETRY_DELAY * (attempt + 1)`; after the loop `failed` is incremented.
A `bodyErr` leaves its truncated file in place — lines 187–190 stream
into the already-opened file and nothing removes it on error. -/
def wAttempt (net : Nat → WFetch) (album name url : String) :
    Nat → Nat → WState → WState
  | 0, _, s => { s with failed := s.failed + 1 }
  | fuel + 1, attempt, s =>
    let s1 : WState := { s with attempts := s.attempts + 1 }
    match net attempt with
    | .ok body =>
      { s1 with files := setFile s1.files name body,
                urlLines := s1.urlLines ++ [album ++ "," ++ name ++ "," ++ url],
                downloaded := s1.downloaded + 1 }
    | .reqErr =>
      wAttempt net album name url fuel (attempt + 1)
        { s1 with sleeps := s1.sleeps ++ [RETRY_DELAY * (attempt + 1)] }
    | .bodyErr chunks =>
      wAttempt net album name url fuel (attempt + 1)
        { s1 with files := setFile s1.files name chunks,
                  sleeps := s1.sleeps ++ [RETRY_DELAY * (attempt + 1)] }

/-- `WallpaperDownloader._download_image`: the `os.path.exists` check
at line 170 skips any file of that name — a truncated leftover
included. -/
def wDownloadImage (net : Nat → WFetch) (album url : String)
    (s : WState) : WState :=
  if wImageName url ∈ s.files.map Prod.fst then { s with skipped := s.skipped + 1 }
  else wAttempt net album (wImageName url) url MAX_RETRIES 0 s

/-- Concrete oracles and payloads used by witnesses and
counterexamples. -/
def netConst (b : List Nat) : String → Option (List Nat) := fun _ => some b

def netNone : String → Option (List Nat) := fun _ => none

def hashConst : List Nat → String := fun _ => "cafe"

def wNetReqFail : Nat → WFetch := fun _ => .reqErr

def wNetBodyFail : Nat → WFetch := fun _ => .bodyErr [42]

def objThumb (u : String) : Json := .obj [("thumb", .str u)]

def recA : Json := objThumb "https://example.com/a.png"

/-- A success payload whose `data` is an object whose first (only)
value is the record list, but under a key the code never tries. -/
def payloadFirstValue : Json :=
  .obj [("code", .num 0), ("data", .obj [("banner", .arr [recA])])]

/-- A success payload with no recognizable shape at all. -/
def payloadNoShape : Json := .obj [("code", .num 0), ("message", .str "ok")]

/-- `listPre p l = true` iff `p` begins `l`; `containsSeq p l = true`
iff `p` occurs contiguously inside `l`. -/
def containsSeq (p : List Char) : List Char → Bool
  | [] => listPre p []
  | c :: rest => listPre p (c :: rest) || containsSeq p rest

/-- State growth along a run: the URL set and the store only gain
members, the ledger is only appended to. -/
def DLe (s s' : DState) : Prop :=
  (∀ x ∈ s.urlSet, x ∈ s'.urlSet) ∧ (∀ x ∈ s.store, x ∈ s'.store) ∧
    ∃ L, s'.ledger = s.ledger ++ L

/-- The in-memory URL set is covered by the persisted ledger, for
strip-fixed entries (true after `__init__`, preserved by the run). -/
def Inv (s : DState) : Prop :=
  ∀ v, pyStrip v = v → v ∈ s.urlSet → v ∈ loadUrlSet s.ledger

/-- After a complete pass, a processed source URL is either persisted
in the ledger or its (cache-bust-invariant) content already sits in
the store under its digest prefix. -/
def UrlDone (net : String → Option (List Nat)) (H : List Nat → String)
    (s : DState) (u : String) : Prop :=
  u ∈ loadUrlSet s.ledger ∨
    ∀ b, net (cacheBust u 0) = some b →
      ∃ f ∈ s.store, strStarts (H b ++ "_") f = true

/-- Hypotheses on the upstream list: every contributed URL is long
enough, strip-fixed, and its (busted) fetch succeeds. -/
def GoodItems (net : String → Option (List Nat)) (L : List Json) : Prop :=
  ∀ item ∈ L, ∀ u, itemUrl item = some u →
    ¬(u = "" ∨ u.length < 10) ∧ pyStrip u = u ∧ ∃ b, net (cacheBust u 0) = some b

/-- The network serves the same body regardless of the cache-busting
parameter value (the parameter exists precisely to be ignored by the
origin server). -/
def BustInvariant (net : String → Option (List Nat)) : Prop :=
  ∀ u t t', net (cacheBust u t) = net (cacheBust u t')

/-- Digests never contain the ledger separator (sha256 hexdigests are
hex strings). -/
def HashClean (H : List Nat → String) : Prop :=
  ∀ b, '|' ∉ (H b).data

theorem splitFirst_some_iff (d : Char) (l pre post : List Char) :
    splitFirstAux d l = some (pre, post) ↔ l = pre ++ d :: post ∧ d ∉ pre := by
  constructor
  · intro h
    induction l generalizing pre post with
    | nil => simp [splitFirstAux] at h
    | cons c rest ih =>
      by_cases hc : c = d
      · subst hc
        simp [splitFirstAux] at h
        obtain ⟨h1, h2⟩ := h
        subst h1; subst h2
        simp
      · simp only [splitFirstAux, if_neg hc] at h
        cases hrec : splitFirstAux d rest with
        | none => rw [hrec] at h; simp at h
        | some pr =>
          rw [hrec] at h
          obtain ⟨pre', post'⟩ := pr
          simp at h
          obtain ⟨h1, h2⟩ := h
          obtain ⟨hr1, hr2⟩ := ih pre' post' hrec
          subst h2
          refine ⟨?_, ?_⟩
          · rw [← h1, hr1]; simp
          · rw [← h1]
            intro hmm
            rcases List.mem_cons.mp hmm with hh | hh
            · exact hc hh.symm
            · exact hr2 hh
  · rintro ⟨hdec, hmem⟩
    subst hdec
    induction pre with
    | nil => simp [splitFirstAux]
    | cons c pre' ih =>
      have hc : c ≠ d := by intro hh; exact hmem (by simp [hh])
      have hm' : d ∉ pre' := fun hh => hmem (by simp [hh])
      simp only [List.cons_append, splitFirstAux, if_neg hc, List.append_eq]
      rw [ih hm']

theorem splitFirst_none_iff (d : Char) (l : List Char) :
    splitFirstAux d l = none ↔ d ∉ l := by
  induction l with
  | nil => simp [splitFirstAux]
  | cons c rest ih =>
    by_cases hc : c = d
    · subst hc; simp [splitFirstAux]
    · simp only [splitFirstAux, if_neg hc]
      cases hrec : splitFirstAux d rest with
      | none =>
        simp only [List.mem_cons]
        constructor
        · intro _
          intro hor
          rcases hor with h1 | h2
          · exact hc h1.symm
          · exact (ih.mp hrec) h2
        · intro _
          trivial
      | some pr =>
        constructor
        · intro h; simp at h
        · intro hmem
          exfalso
          have : d ∉ rest := fun hh => hmem (by simp [hh])
          rw [ih.mpr this] at hrec
          simp at hrec

theorem dropWhile_dropWhile (p : Char → Bool) (l : List Char) :
    (l.dropWhile p).dropWhile p = l.dropWhile p := by
  induction l with
  | nil => rfl
  | cons c rest ih =>
    by_cases hc : p c
    · simp [List.dropWhile_cons, hc, ih]
    · simp [List.dropWhile_cons, hc]

theorem stripR_prefix (l : List Char) : ∃ t, stripR l ++ t = l := by
  refine ⟨(l.reverse.takeWhile isSpc).reverse, ?_⟩
  have h := List.takeWhile_append_dropWhile (p := isSpc) (l := l.reverse)
  have h2 := congrArg List.reverse h
  simp only [List.reverse_append, List.reverse_reverse] at h2
  exact h2

theorem stripL_stripR (l : List Char) (hl : l.dropWhile isSpc = l) :
    (stripR l).dropWhile isSpc = stripR l := by
  obtain ⟨t, ht⟩ := stripR_prefix l
  cases hsr : stripR l with
  | nil => rfl
  | cons c m =>
    have hlc : ∃ r, l = c :: r := by
      refine ⟨m ++ t, ?_⟩
      rw [← ht, hsr]; simp
    obtain ⟨r, hr⟩ := hlc
    have hc : ¬ isSpc c = true := by
      intro hspc
      rw [hr] at hl
      rw [List.dropWhile_cons, if_pos hspc] at hl
      have hlen := congrArg List.length hl
      have hle := (List.dropWhile_sublist (l := r) isSpc).length_le
      simp at hlen
      omega
    simp [List.dropWhile_cons, hc]

theorem stripR_stripR (l : List Char) : stripR (stripR l) = stripR l := by
  unfold stripR
  simp [List.reverse_reverse, dropWhile_dropWhile]

theorem pyStrip_idem (s : String) : pyStrip (pyStrip s) = pyStrip s := by
  unfold pyStrip stripL
  have h1 : (stripL s.data).dropWhile isSpc = stripL s.data :=
    dropWhile_dropWhile isSpc s.data
  have h2 : (stripR (stripL s.data)).dropWhile isSpc = stripR (stripL s.data) :=
    stripL_stripR (stripL s.data) h1
  show ⟨stripR ((stripR (stripL s.data)).dropWhile isSpc)⟩ =
    (⟨stripR (stripL s.data)⟩ : String)
  rw [h2, stripR_stripR]

/-- Claim C8: `_load_url_set` is total (the model is a plain function;
the Python `try` swallows any I/O error), and its resulting set
contains exactly, for every line: the stripped part after the first
`|` of every stripped non-empty line containing a `|`, and the whole
stripped line for every other non-empty line.  No line is skipped:
every non-empty line is one of the two forms, so the claim's
malformed-line clause is vacuous. -/
theorem ledgerLoadCharacterization (lines : List String) (u : String) :
    u ∈ loadUrlSet lines ↔
      ∃ line ∈ lines,
        (∃ h rest, (pyStrip line).data = h ++ '|' :: rest ∧ '|' ∉ h ∧
          u = pyStrip ⟨rest⟩) ∨
        (pyStrip line ≠ "" ∧ '|' ∉ (pyStrip line).data ∧ u = pyStrip line) := by
  rw [loadUrlSet, List.mem_filterMap]
  constructor
  · rintro ⟨line, hmem, hparse⟩
    refine ⟨line, hmem, ?_⟩
    unfold parseLedgerLine at hparse
    by_cases hempty : pyStrip line = ""
    · rw [if_pos hempty] at hparse; simp at hparse
    · rw [if_neg hempty] at hparse
      cases hsplit : splitFirstAux '|' (pyStrip line).data with
      | some pr =>
        obtain ⟨pre, rest⟩ := pr
        rw [hsplit] at hparse
        simp at hparse
        obtain ⟨hd, hm⟩ := (splitFirst_some_iff '|' _ pre rest).mp hsplit
        exact Or.inl ⟨pre, rest, hd, hm, hparse.symm⟩
      | none =>
        rw [hsplit] at hparse
        simp at hparse
        refine Or.inr ⟨hempty, (splitFirst_none_iff '|' _).mp hsplit, ?_⟩
        rw [← hparse, pyStrip_idem]
  · rintro ⟨line, hmem, hcase⟩
    refine ⟨line, hmem, ?_⟩
    unfold parseLedgerLine
    rcases hcase with ⟨pre, rest, hd, hm, hu⟩ | ⟨hne, hnb, hu⟩
    · have hempty : ¬ pyStrip line = "" := by
        intro hh
        rw [hh] at hd
        simp at hd
      rw [if_neg hempty]
      rw [(splitFirst_some_iff '|' _ pre rest).mpr ⟨hd, hm⟩]
      rw [hu]
    · rw [if_neg hne]
      rw [(splitFirst_none_iff '|' _).mpr hnb]
      rw [hu, pyStrip_idem]

theorem strData_append (a b : String) : (a ++ b).data = a.data ++ b.data := rfl

theorem ampData : ("&" : String).data = ['&'] := rfl

theorem qmData : ("?" : String).data = ['?'] := rfl

theorem hashMarkData : ("#" : String).data = ['#'] := rfl

theorem listPre_self_append : ∀ (p y : List Char), listPre p (p ++ y) = true := by
  intro p
  induction p with
  | nil => intro y; rfl
  | cons a as ih =>
    intro y
    simp only [List.cons_append, listPre]
    simp [ih y]

theorem containsSeq_of_decomp :
    ∀ (x p y l : List Char), l = x ++ p ++ y → containsSeq p l = true := by
  intro x
  induction x with
  | nil =>
    intro p y l hl
    simp only [List.nil_append] at hl
    subst hl
    cases hpy : p ++ y with
    | nil =>
      have hp : p = [] := (List.append_eq_nil.mp hpy).1
      subst hp
      rfl
    | cons c rest =>
      show (listPre p (c :: rest) || containsSeq p rest) = true
      rw [← hpy, listPre_self_append]
      simp
  | cons a x' ih =>
    intro p y l hl
    subst hl
    show (listPre p ((a :: x') ++ p ++ y) || containsSeq p (x' ++ p ++ y)) = true
    rw [ih p y (x' ++ p ++ y) rfl]
    simp

theorem dictSet_self_mem (d : List (String × List String)) (k : String)
    (v : List String) : (k, v) ∈ dictSet d k v := by
  unfold dictSet
  split
  · rename_i hany
    obtain ⟨e, he, hek⟩ := List.any_eq_true.mp hany
    have hek' : e.1 = k := by simpa using hek
    refine List.mem_map.mpr ⟨e, he, ?_⟩
    rw [if_pos hek', hek']
  · simp

theorem encodeFields_mem :
    ∀ (q : List (String × List String)) (k : String) (vs : List String) (v : String),
      (k, vs) ∈ q → v ∈ vs → (quotePlus k ++ "=" ++ quotePlus v) ∈ encodeFields q := by
  intro q
  induction q with
  | nil => intro k vs v h _; simp at h
  | cons e rest ih =>
    intro k vs v hmem hv
    have hunf : encodeFields (e :: rest)
        = e.2.map (fun w => quotePlus e.1 ++ "=" ++ quotePlus w) ++ encodeFields rest := rfl
    rw [hunf]
    rcases List.mem_cons.mp hmem with he | he
    · subst he
      exact List.mem_append_left _ (List.mem_map.mpr ⟨v, hv, rfl⟩)
    · exact List.mem_append_right _ (ih k vs v he hv)

theorem joinAmp_sub :
    ∀ (fields : List String) (f : String), f ∈ fields →
      ∃ x y, (joinAmp fields).data = x ++ f.data ++ y := by
  intro fields
  induction fields with
  | nil => intro f h; simp at h
  | cons g rest ih =>
    intro f hf
    cases rest with
    | nil =>
      have hfg : f = g := by simpa using hf
      subst hfg
      exact ⟨[], [], by simp [joinAmp]⟩
    | cons r rest' =>
      have hunf : joinAmp (g :: r :: rest') = g ++ "&" ++ joinAmp (r :: rest') := rfl
      rcases List.mem_cons.mp hf with he | he
      · subst he
        refine ⟨[], '&' :: (joinAmp (r :: rest')).data, ?_⟩
        rw [hunf, strData_append, strData_append, ampData]
        simp
      · obtain ⟨x, y, hxy⟩ := ih f he
        refine ⟨g.data ++ '&' :: x, y, ?_⟩
        rw [hunf, strData_append, strData_append, ampData, hxy]
        simp

theorem bustQuery_sub (url : String) (ms : Nat) :
    ∃ x y, (bustQuery url ms).data = x ++ ['_', '='] ++ y := by
  unfold bustQuery urlencodeSeq
  have hmem : ("_", [toString ms]) ∈
      dictSet (parseQs (pyUrlsplit url).query) "_" [toString ms] :=
    dictSet_self_mem _ _ _
  have hfield := encodeFields_mem _ "_" [toString ms] (toString ms) hmem (by simp)
  obtain ⟨x, y, hxy⟩ := joinAmp_sub _ _ hfield
  refine ⟨x, (quotePlus (toString ms)).data ++ y, ?_⟩
  rw [hxy]
  have hfd : (quotePlus "_" ++ "=" ++ quotePlus (toString ms)).data
      = ['_', '='] ++ (quotePlus (toString ms)).data := by
    rw [strData_append, strData_append]
    rfl
  rw [hfd]
  simp

theorem bustQuery_ne (url : String) (ms : Nat) : bustQuery url ms ≠ "" := by
  obtain ⟨x, y, hxy⟩ := bustQuery_sub url ms
  intro h
  rw [h] at hxy
  have : ([] : List Char) = x ++ ['_', '='] ++ y := hxy
  simp at this

theorem pyUrlunsplit_decomp (p : UrlParts) (h : ¬ p.query = "") :
    ∃ a c, (pyUrlunsplit p).data = a ++ p.query.data ++ c := by
  unfold pyUrlunsplit pyUrlunsplitQ
  rw [if_pos h]
  by_cases hf : p.fragment = ""
  · rw [if_neg (not_not_intro hf)]
    refine ⟨(unsplitBase p).data ++ ['?'], [], ?_⟩
    rw [strData_append, strData_append, qmData]
    simp
  · rw [if_pos hf]
    refine ⟨(unsplitBase p).data ++ ['?'], '#' :: p.fragment.data, ?_⟩
    rw [strData_append, strData_append, strData_append, strData_append, qmData,
      hashMarkData]
    simp

theorem cacheBust_sub (url : String) (ms : Nat) :
    ∃ x y, (cacheBust url ms).data = x ++ ['_', '='] ++ y := by
  unfold cacheBust
  obtain ⟨a, c, hac⟩ :=
    pyUrlunsplit_decomp { pyUrlsplit url with query := bustQuery url ms }
      (bustQuery_ne url ms)
  obtain ⟨x, y, hxy⟩ := bustQuery_sub url ms
  refine ⟨a ++ x, y ++ c, ?_⟩
  rw [hac]
  show a ++ (bustQuery url ms).data ++ c = a ++ x ++ ['_', '='] ++ (y ++ c)
  rw [hxy]
  simp

theorem downloadImage_eq_some (net : String → Option (List Nat))
    (H : List Nat → String) (t : Nat) (url : String) (s : DState) (b : List Nat)
    (hvalid : ¬(url = "" ∨ url.length < 10)) (hnew : url ∉ s.urlSet)
    (hnet : net (cacheBust url t) = some b) :
    downloadImage net H t url s =
      if s.store.any (fun f => strStarts (H b ++ "_") f) then
        saveUrl true (H b) (cacheBust url t)
          { s with netCalls := s.netCalls + 1, skipped := s.skipped + 1 }
      else
        saveUrl true (H b) (cacheBust url t)
          { s with netCalls := s.netCalls + 1,
                   store := s.store ++ [H b ++ "_" ++ toString t ++ "_splash.jpg"],
                   downloaded := s.downloaded + 1 } := by
  unfold downloadImage
  rw [if_neg hvalid, if_neg hnew, hnet]

theorem strExt {a b : String} (h : a.data = b.data) : a = b := by
  cases a
  cases b
  exact congrArg String.mk h

theorem strAppend_assoc (a b c : String) : a ++ b ++ c = a ++ (b ++ c) :=
  strExt (by rw [strData_append, strData_append, strData_append, strData_append,
    List.append_assoc])

theorem strStarts_self_append (p r : String) : strStarts p (p ++ r) = true := by
  unfold strStarts
  rw [strData_append]
  exact listPre_self_append _ _

theorem processItem_some (net : String → Option (List Nat)) (H : List Nat → String)
    (t : Nat) (item : Json) (s : DState) (u : String) (h : itemUrl item = some u) :
    processItem net H t item s = downloadImage net H t u s := by
  unfold processItem
  rw [h]

theorem saveUrl_true_eq (h u : String) (s : DState) :
    saveUrl true h u s =
      { s with ledger := s.ledger ++ [h ++ "|" ++ u], urlSet := s.urlSet ++ [u] } := rfl

/-- Claim C2, counterexample: two descriptors with distinct sourceURLs
and byte-identical payloads do produce exactly one stored file, but the
URLs recorded in the ledger are the cache-busted ones — NEITHER
original sourceURL ends up recorded in the ledger (neither in the
in-memory set nor recoverable by `_load_url_set`), contradicting the
claim's "both URLs end up recorded in the Ledger". -/
theorem contentDedupLedgerCounterexample :
    (runPass (netConst [7]) hashConst [1, 2]
        [objThumb "https://img.example.com/one.png",
          objThumb "https://img.example.com/two.png"] dInit).store.length = 1 ∧
    "https://img.example.com/one.png" ∉
      (runPass (netConst [7]) hashConst [1, 2]
        [objThumb "https://img.example.com/one.png",
          objThumb "https://img.example.com/two.png"] dInit).urlSet ∧
    "https://img.example.com/one.png" ∉
      loadUrlSet (runPass (netConst [7]) hashConst [1, 2]
        [objThumb "https://img.example.com/one.png",
          objThumb "https://img.example.com/two.png"] dInit).ledger ∧
    "https://img.example.com/two.png" ∉
      loadUrlSet (runPass (netConst [7]) hashConst [1, 2]
        [objThumb "https://img.example.com/one.png",
          objThumb "https://img.example.com/two.png"] dInit).ledger := by
  refine ⟨rfl, by decide, by decide, by decide⟩

/-- Claim C2, amended: for two descriptors with distinct sourceURLs
whose fetches return byte-identical payloads, one run stores exactly
one file (the second fetch finds the just-written file by its digest
prefix and writes nothing: the store gains only the first file, and
`downloaded`/`skipped` each rise by one), and the ledger gains one
line per URL — each carrying the shared digest and the cache-busted
form of that URL (not the original sourceURL). -/
theorem contentDedupAmended (net : String → Option (List Nat))
    (H : List Nat → String) (t1 t2 : Nat) (i1 i2 : Json) (u1 u2 : String)
    (b : List Nat) (s : DState)
    (hi1 : itemUrl i1 = some u1) (hi2 : itemUrl i2 = some u2)
    (hv1 : ¬(u1 = "" ∨ u1.length < 10)) (hv2 : ¬(u2 = "" ∨ u2.length < 10))
    (hnew1 : u1 ∉ s.urlSet) (hnew2 : u2 ∉ s.urlSet)
    (hne : u2 ≠ cacheBust u1 t1)
    (hb1 : net (cacheBust u1 t1) = some b) (hb2 : net (cacheBust u2 t2) = some b)
    (hstore : s.store.any (fun f => strStarts (H b ++ "_") f) = false) :
    (runPass net H [t1, t2] [i1, i2] s).store =
        s.store ++ [H b ++ "_" ++ toString t1 ++ "_splash.jpg"] ∧
    (runPass net H [t1, t2] [i1, i2] s).downloaded = s.downloaded + 1 ∧
    (runPass net H [t1, t2] [i1, i2] s).skipped = s.skipped + 1 ∧
    (runPass net H [t1, t2] [i1, i2] s).failed = s.failed ∧
    (runPass net H [t1, t2] [i1, i2] s).ledger =
      s.ledger ++ [H b ++ "|" ++ cacheBust u1 t1, H b ++ "|" ++ cacheBust u2 t2] ∧
    (runPass net H [t1, t2] [i1, i2] s).urlSet =
      s.urlSet ++ [cacheBust u1 t1, cacheBust u2 t2] := by
  have hrun : runPass net H [t1, t2] [i1, i2] s
      = processItem net H t2 i2 (processItem net H t1 i1 s) := rfl
  have hfname : H b ++ "_" ++ toString t1 ++ "_splash.jpg"
      = (H b ++ "_") ++ (toString t1 ++ "_splash.jpg") := by
    rw [strAppend_assoc]
  have hpre : strStarts (H b ++ "_") (H b ++ "_" ++ toString t1 ++ "_splash.jpg")
      = true := by
    rw [hfname]
    exact strStarts_self_append _ _
  have h1 : processItem net H t1 i1 s =
      ({ urlSet := s.urlSet ++ [cacheBust u1 t1],
         store := s.store ++ [H b ++ "_" ++ toString t1 ++ "_splash.jpg"],
         ledger := s.ledger ++ [H b ++ "|" ++ cacheBust u1 t1],
         downloaded := s.downloaded + 1, skipped := s.skipped,
         failed := s.failed, netCalls := s.netCalls + 1 } : DState) := by
    rw [processItem_some net H t1 i1 s u1 hi1,
      downloadImage_eq_some net H t1 u1 s b hv1 hnew1 hb1,
      if_neg (by rw [hstore]; exact Bool.false_ne_true), saveUrl_true_eq]
  have hnew2' : u2 ∉ s.urlSet ++ [cacheBust u1 t1] := by
    intro hmem
    rcases List.mem_append.mp hmem with hh | hh
    · exact hnew2 hh
    · exact hne (by simpa using hh)
  have hany : (s.store ++ [H b ++ "_" ++ toString t1 ++ "_splash.jpg"]).any
      (fun f => strStarts (H b ++ "_") f) = true := by
    rw [List.any_append]
    simp [hpre]
  have h2 : processItem net H t2 i2
      ({ urlSet := s.urlSet ++ [cacheBust u1 t1],
         store := s.store ++ [H b ++ "_" ++ toString t1 ++ "_splash.jpg"],
         ledger := s.ledger ++ [H b ++ "|" ++ cacheBust u1 t1],
         downloaded := s.downloaded + 1, skipped := s.skipped,
         failed := s.failed, netCalls := s.netCalls + 1 } : DState) =
      ({ urlSet := (s.urlSet ++ [cacheBust u1 t1]) ++ [cacheBust u2 t2],
         store := s.store ++ [H b ++ "_" ++ toString t1 ++ "_splash.jpg"],
         ledger := (s.ledger ++ [H b ++ "|" ++ cacheBust u1 t1]) ++
           [H b ++ "|" ++ cacheBust u2 t2],
         downloaded := s.downloaded + 1, skipped := s.skipped + 1,
         failed := s.failed, netCalls := s.netCalls + 1 + 1 } : DState) := by
    rw [processItem_some net H t2 i2 _ u2 hi2,
      downloadImage_eq_some net H t2 u2 _ b hv2 hnew2' hb2,
      if_pos hany, saveUrl_true_eq]
  rw [hrun, h1, h2]
  refine ⟨rfl, rfl, rfl, rfl, by simp, by simp⟩

theorem contentDedupAmendedWitness :
    (("https://img.example.com/two.png" : String) ≠
        cacheBust "https://img.example.com/one.png" 1) ∧
      ((runPass (netConst [7]) hashConst [1, 2]
          [objThumb "https://img.example.com/one.png",
            objThumb "https://img.example.com/two.png"] dInit).store =
        dInit.store ++ [hashConst [7] ++ "_" ++ toString 1 ++ "_splash.jpg"] ∧
      (runPass (netConst [7]) hashConst [1, 2]
          [objThumb "https://img.example.com/one.png",
            objThumb "https://img.example.com/two.png"] dInit).downloaded =
        dInit.downloaded + 1 ∧
      (runPass (netConst [7]) hashConst [1, 2]
          [objThumb "https://img.example.com/one.png",
            objThumb "https://img.example.com/two.png"] dInit).skipped =
        dInit.skipped + 1 ∧
      (runPass (netConst [7]) hashConst [1, 2]
          [objThumb "https://img.example.com/one.png",
            objThumb "https://img.example.com/two.png"] dInit).failed = dInit.failed ∧
      (runPass (netConst [7]) hashConst [1, 2]
          [objThumb "https://img.example.com/one.png",
            objThumb "https://img.example.com/two.png"] dInit).ledger =
        dInit.ledger ++
          [hashConst [7] ++ "|" ++ cacheBust "https://img.example.com/one.png" 1,
            hashConst [7] ++ "|" ++ cacheBust "https://img.example.com/two.png" 2] ∧
      (runPass (netConst [7]) hashConst [1, 2]
          [objThumb "https://img.example.com/one.png",
            objThumb "https://img.example.com/two.png"] dInit).urlSet =
        dInit.urlSet ++
          [cacheBust "https://img.example.com/one.png" 1,
            cacheBust "https://img.example.com/two.png" 2]) :=
  ⟨by decide,
    contentDedupAmended (netConst [7]) hashConst 1 2
      (objThumb "https://img.example.com/one.png")
      (objThumb "https://img.example.com/two.png")
      "https://img.example.com/one.png" "https://img.example.com/two.png" [7] dInit
      rfl rfl (by decide) (by decide) (by decide) (by decide) (by decide) rfl rfl rfl⟩

/-- Claim C9 (implicit): when a URL passes the ledger membership test
and the download succeeds — whichever of the `Downloaded` or
`SkippedDuplicateContent` branches is taken — what gets appended to the
ledger file and added to the in-memory set is the cache-busted URL
`cacheBust url t`, which carries a `_=`-parameter and therefore differs
from any input URL that does not contain the character sequence `_=`. -/
theorem bustedUrlRecorded (net : String → Option (List Nat))
    (H : List Nat → String) (t : Nat) (url : String) (s : DState) (b : List Nat)
    (hvalid : ¬(url = "" ∨ url.length < 10)) (hnew : url ∉ s.urlSet)
    (hnet : net (cacheBust url t) = some b) :
    (downloadImage net H t url s).urlSet = s.urlSet ++ [cacheBust url t] ∧
    (downloadImage net H t url s).ledger =
      s.ledger ++ [H b ++ "|" ++ cacheBust url t] ∧
    (containsSeq ['_', '='] url.data = false → cacheBust url t ≠ url) := by
  rw [downloadImage_eq_some net H t url s b hvalid hnew hnet]
  refine ⟨?_, ?_, ?_⟩
  · split <;> simp [saveUrl, saveUrlBody]
  · split <;> simp [saveUrl, saveUrlBody]
  · intro hns heq
    obtain ⟨x, y, hxy⟩ := cacheBust_sub url t
    rw [heq] at hxy
    have := containsSeq_of_decomp x ['_', '='] y url.data hxy
    rw [hns] at this
    exact Bool.false_ne_true this

theorem bustedUrlRecordedWitness :
    (netConst [3] (cacheBust "https://cdn.example.com/img/one.png" 777) = some [3]) ∧
      ((downloadImage (netConst [3]) hashConst 777
          "https://cdn.example.com/img/one.png" dInit).urlSet =
        dInit.urlSet ++ [cacheBust "https://cdn.example.com/img/one.png" 777] ∧
      (downloadImage (netConst [3]) hashConst 777
          "https://cdn.example.com/img/one.png" dInit).ledger =
        dInit.ledger ++
          [hashConst [3] ++ "|" ++ cacheBust "https://cdn.example.com/img/one.png" 777] ∧
      (containsSeq ['_', '='] ("https://cdn.example.com/img/one.png" : String).data =
          false →
        cacheBust "https://cdn.example.com/img/one.png" 777 ≠
          "https://cdn.example.com/img/one.png")) :=
  ⟨rfl,
    bustedUrlRecorded (netConst [3]) hashConst 777 "https://cdn.example.com/img/one.png"
      dInit [3] (by decide) (by decide) rfl⟩

/-- Claim C10: ledger-append atomicity of `_save_url` — when the file
append raises, the in-memory URL set is left unchanged and no
exception reaches the caller (`saveUrl` is total and returns the
untouched state); the set is extended with the url only on the success
path, after the line has been appended. -/
theorem saveUrlAtomicity (h u : String) (s : DState) :
    saveUrl false h u s = s ∧
    saveUrlBody false h u s = .error (.ioError, s) ∧
    (saveUrl true h u s).urlSet = s.urlSet ++ [u] ∧
    (saveUrl true h u s).ledger = s.ledger ++ [h ++ "|" ++ u] ∧
    (saveUrl true h u s).store = s.store ∧
    (saveUrl true h u s).downloaded = s.downloaded ∧
    (saveUrl true h u s).skipped = s.skipped ∧
    (saveUrl true h u s).failed = s.failed := by
  refine ⟨?_, ?_, ?_, ?_, ?_, ?_, ?_, ?_⟩ <;> simp [saveUrl, saveUrlBody]

/-- Claim C5, counterexample: a too-short source URL makes
`_download_image` return at line 297 without touching any counter, so
the run report's `failed` tally does NOT account for it (it stays 0,
not 1), contradicting the claim; no network call happens. -/
theorem invalidUrlCounterexample :
    downloadImage netNone hashConst 0 "x" dInit = dInit ∧
    (downloadImage netNone hashConst 0 "x" dInit).failed ≠ dInit.failed + 1 ∧
    (downloadImage netNone hashConst 0 "x" dInit).netCalls = 0 := by
  refine ⟨rfl, ?_, rfl⟩
  decide

/-- Claim C5, amended: for every descriptor whose sourceURL is empty or
shorter than 10 characters, the fetch returns immediately with no
network call and no state change at all — in particular no counter,
not even `failed`, records the rejection. -/
theorem invalidUrlAmended (net : String → Option (List Nat)) (H : List Nat → String)
    (t : Nat) (url : String) (s : DState) (h : url = "" ∨ url.length < 10) :
    downloadImage net H t url s = s := by
  unfold downloadImage
  rw [if_pos h]

theorem invalidUrlAmendedWitness :
    (("x" : String) = "" ∨ ("x" : String).length < 10) ∧
      downloadImage netNone hashConst 0 "x" dInit = dInit :=
  ⟨Or.inr (by decide), invalidUrlAmended netNone hashConst 0 "x" dInit (Or.inr (by decide))⟩

theorem setFile_new (files : List (String × List Nat)) (name : String)
    (bytes : List Nat) (hnot : name ∉ files.map Prod.fst) :
    setFile files name bytes = files ++ [(name, bytes)] := by
  unfold setFile
  have hany : files.any (fun e => e.1 = name) = false := by
    cases hc : files.any (fun e => e.1 = name) with
    | false => rfl
    | true =>
      obtain ⟨e, he, hh⟩ := List.any_eq_true.mp hc
      have hh' : e.1 = name := by simpa using hh
      exact absurd (List.mem_map.mpr ⟨e, he, hh'⟩) hnot
  rw [if_neg (by rw [hany]; exact Bool.false_ne_true)]

theorem setFile_overwrite (files : List (String × List Nat)) (name : String)
    (oldB newB : List Nat) (hnot : name ∉ files.map Prod.fst) :
    setFile (files ++ [(name, oldB)]) name newB = files ++ [(name, newB)] := by
  unfold setFile
  have hany : (files ++ [(name, oldB)]).any (fun e => e.1 = name) = true := by
    rw [List.any_append]
    simp
  rw [if_pos hany, List.map_append]
  have hmap : ∀ (fs : List (String × List Nat)), (∀ e ∈ fs, e.1 ≠ name) →
      fs.map (fun e => if e.1 = name then (name, newB) else e) = fs := by
    intro fs
    induction fs with
    | nil => intro _; rfl
    | cons e fs' ih =>
      intro hall
      have h1 : e.1 ≠ name := hall e (by simp)
      simp only [List.map_cons, if_neg h1]
      rw [ih (fun x hx => hall x (List.mem_cons_of_mem _ hx))]
  rw [hmap files (fun e he hh => hnot (List.mem_map.mpr ⟨e, he, hh⟩))]
  simp

/-- Claim C3, counterexample: a URL whose download raises a transport
error on every attempt — here during body streaming, after
`open(save_path, "wb")` — is attempted exactly `MAX_RETRIES` times and
reported `Failed`, yet a truncated file IS left on disk (the code has
no cleanup), contradicting the claim's no-partial-file clause; a later
call for the same URL even mistakes the leftover for a completed
download and skips it without any attempt. -/
theorem retryBoundCounterexample :
    (wDownloadImage wNetBodyFail "alb" "https://h/i.jpg" wInit).attempts
        = MAX_RETRIES ∧
    (wDownloadImage wNetBodyFail "alb" "https://h/i.jpg" wInit).failed = 1 ∧
    (wDownloadImage wNetBodyFail "alb" "https://h/i.jpg" wInit).files =
      [(wImageName "https://h/i.jpg", [42])] ∧
    (wDownloadImage wNetBodyFail "alb" "https://h/i.jpg" wInit).files ≠ [] ∧
    (wDownloadImage wNetBodyFail "alb" "https://h/i.jpg"
        (wDownloadImage wNetBodyFail "alb" "https://h/i.jpg" wInit)).skipped = 1 ∧
    (wDownloadImage wNetBodyFail "alb" "https://h/i.jpg"
        (wDownloadImage wNetBodyFail "alb" "https://h/i.jpg" wInit)).attempts =
      MAX_RETRIES := by
  refine ⟨rfl, rfl, rfl, by decide, rfl, rfl⟩

/-- Claim C3, amended: a source URL whose download always raises a
transport error is attempted exactly `MAX_RETRIES` times, each retry
preceded by a strictly increasing, never-zero backoff
(`RETRY_DELAY * (attempt + 1)`), then reported `Failed` with
`downloaded` unchanged.  No file is left on disk only when every
error is raised before body streaming begins (at
`requests.get`/`raise_for_status`); a transport error during body
streaming (`stream=True`) instead leaves the last attempt's truncated
file on disk, never removed. -/
theorem retryBoundBackoffAmended (net1 net2 : Nat → WFetch) (album url : String)
    (s : WState) (bs : Nat → List Nat)
    (hreq : ∀ i, net1 i = .reqErr)
    (hbody : ∀ i, net2 i = .bodyErr (bs i))
    (hnew : wImageName url ∉ s.files.map Prod.fst) :
    ((wDownloadImage net1 album url s).attempts = s.attempts + MAX_RETRIES ∧
      (wDownloadImage net1 album url s).failed = s.failed + 1 ∧
      (wDownloadImage net1 album url s).files = s.files ∧
      (wDownloadImage net1 album url s).urlLines = s.urlLines ∧
      (wDownloadImage net1 album url s).downloaded = s.downloaded ∧
      (wDownloadImage net1 album url s).sleeps =
        s.sleeps ++ (List.range MAX_RETRIES).map (fun i => RETRY_DELAY * (i + 1))) ∧
    (List.Chain' (· < ·)
        ((List.range MAX_RETRIES).map fun i => RETRY_DELAY * (i + 1)) ∧
      ∀ d ∈ (List.range MAX_RETRIES).map (fun i => RETRY_DELAY * (i + 1)), 0 < d) ∧
    ((wDownloadImage net2 album url s).attempts = s.attempts + MAX_RETRIES ∧
      (wDownloadImage net2 album url s).failed = s.failed + 1 ∧
      (wDownloadImage net2 album url s).downloaded = s.downloaded ∧
      (wDownloadImage net2 album url s).urlLines = s.urlLines ∧
      (wDownloadImage net2 album url s).sleeps =
        s.sleeps ++ (List.range MAX_RETRIES).map (fun i => RETRY_DELAY * (i + 1)) ∧
      (wDownloadImage net2 album url s).files =
        s.files ++ [(wImageName url, bs (MAX_RETRIES - 1))]) := by
  have h5 : (List.range MAX_RETRIES).map (fun i => RETRY_DELAY * (i + 1)) =
      [2, 4, 6, 8, 10] := by decide
  have e0 : setFile s.files (wImageName url) (bs 0)
      = s.files ++ [(wImageName url, bs 0)] := setFile_new _ _ _ hnew
  have e1 : setFile (s.files ++ [(wImageName url, bs 0)]) (wImageName url) (bs 1)
      = s.files ++ [(wImageName url, bs 1)] := setFile_overwrite _ _ _ _ hnew
  have e2 : setFile (s.files ++ [(wImageName url, bs 1)]) (wImageName url) (bs 2)
      = s.files ++ [(wImageName url, bs 2)] := setFile_overwrite _ _ _ _ hnew
  have e3 : setFile (s.files ++ [(wImageName url, bs 2)]) (wImageName url) (bs 3)
      = s.files ++ [(wImageName url, bs 3)] := setFile_overwrite _ _ _ _ hnew
  have e4 : setFile (s.files ++ [(wImageName url, bs 3)]) (wImageName url) (bs 4)
      = s.files ++ [(wImageName url, bs 4)] := setFile_overwrite _ _ _ _ hnew
  unfold wDownloadImage
  rw [if_neg hnew, if_neg hnew]
  refine ⟨⟨?_, ?_, ?_, ?_, ?_, ?_⟩, ⟨?_, ?_⟩, ?_, ?_, ?_, ?_, ?_, ?_⟩
  · simp [MAX_RETRIES, wAttempt, hreq]
  · simp [MAX_RETRIES, wAttempt, hreq]
  · simp [MAX_RETRIES, wAttempt, hreq]
  · simp [MAX_RETRIES, wAttempt, hreq]
  · simp [MAX_RETRIES, wAttempt, hreq]
  · rw [h5]; simp [MAX_RETRIES, wAttempt, hreq, RETRY_DELAY]
  · rw [h5]; simp [List.chain'_cons]
  · rw [h5]; decide
  · simp [MAX_RETRIES, wAttempt, hbody]
  · simp [MAX_RETRIES, wAttempt, hbody]
  · simp [MAX_RETRIES, wAttempt, hbody]
  · simp [MAX_RETRIES, wAttempt, hbody]
  · rw [h5]; simp [MAX_RETRIES, wAttempt, hbody, RETRY_DELAY]
  · simp [MAX_RETRIES, wAttempt, hbody, e0, e1, e2, e3, e4]

/-- Claim C4, counterexample: for a success payload whose `data` is an
object whose first value is the record list (the claim's shape 4), the
normalizer does NOT return that list — it falls through every
`possible_paths` entry and returns the empty list; and for the claim's
shape 2 (`data` itself a list of records) the lookup on line 239
raises `AttributeError` instead of returning the list. -/
theorem shapeToleranceCounterexample :
    getSplashItems payloadFirstValue = .ok (some []) ∧
    getSplashItems payloadFirstValue ≠ .ok (some [recA]) ∧
    getSplashItems (.obj [("code", .num 0), ("data", .arr [recA])]) =
      .error .attributeError := by
  refine ⟨rfl, ?_, rfl⟩
  intro h
  rw [show getSplashItems payloadFirstValue = (.ok (some []) :
      Except PyErr (Option (List Json))) from rfl] at h
  simp at h

/-- Claim C4, amended: the normalizer tries, in order, `data.list`,
`data.splash_list`, top-level `list`, top-level `splash`, top-level
`images`, and returns the first non-empty list; each of those five
shapes with the same record list yields that list.  The claim's
flatten shape and first-value shape are unsupported (they fall through
to the empty list), and `data` being itself a list raises
`AttributeError` instead of being accepted. -/
theorem shapeToleranceAmended (L : List Json) (hL : L ≠ []) :
    getSplashItems (.obj [("code", .num 0), ("data", .obj [("list", .arr L)])]) =
      .ok (some L) ∧
    getSplashItems (.obj [("code", .num 0), ("data", .obj [("splash_list", .arr L)])]) =
      .ok (some L) ∧
    getSplashItems (.obj [("code", .num 0), ("list", .arr L)]) = .ok (some L) ∧
    getSplashItems (.obj [("code", .num 0), ("splash", .arr L)]) = .ok (some L) ∧
    getSplashItems (.obj [("code", .num 0), ("images", .arr L)]) = .ok (some L) ∧
    (∀ M : List Json,
      getSplashItems (.obj [("code", .num 0), ("data", .arr M)]) =
        .error .attributeError) ∧
    getSplashItems payloadFirstValue = .ok (some []) := by
  obtain ⟨x, xs, rfl⟩ := List.exists_cons_of_ne_nil hL
  exact ⟨rfl, rfl, rfl, rfl, rfl, fun M => rfl, rfl⟩

theorem shapeToleranceAmendedWitness :
    ([recA] ≠ ([] : List Json)) ∧
      (getSplashItems (.obj [("code", .num 0), ("data", .obj [("list", .arr [recA])])]) =
          .ok (some [recA]) ∧
        getSplashItems
            (.obj [("code", .num 0), ("data", .obj [("splash_list", .arr [recA])])]) =
          .ok (some [recA]) ∧
        getSplashItems (.obj [("code", .num 0), ("list", .arr [recA])]) =
          .ok (some [recA]) ∧
        getSplashItems (.obj [("code", .num 0), ("splash", .arr [recA])]) =
          .ok (some [recA]) ∧
        getSplashItems (.obj [("code", .num 0), ("images", .arr [recA])]) =
          .ok (some [recA]) ∧
        (∀ M : List Json,
          getSplashItems (.obj [("code", .num 0), ("data", .arr M)]) =
            .error .attributeError) ∧
        getSplashItems payloadFirstValue = .ok (some [])) :=
  ⟨by simp, shapeToleranceAmended [recA] (by simp)⟩

/-- Claim C6, counterexample: a success-status payload in which no
known shape occurs at all is NOT a ParseFailure — `_get_splash_items`
returns the empty list and the run is a successful no-op, exactly like
the explicitly-empty case, so the middle part of the claim fails. -/
theorem emptyVsFailureCounterexample :
    getSplashItems payloadNoShape = .ok (some []) ∧
    runModel [some payloadNoShape] netNone hashConst [] dInit = (true, dInit) ∧
    (runModel [some payloadNoShape] netNone hashConst [] dInit).2.failed = 0 :=
  ⟨rfl, rfl, rfl⟩

/-- Claim C6, amended: a success-status response in which every tried
shape yields nothing (whether present-but-empty or absent) makes the
run a successful no-op — `success = true`, counters untouched, so
`failed = 0` when starting from zero — while malformed JSON on every
candidate endpoint makes `_fetch_splash_list` return `None` and the
run report failure with counters untouched. -/
theorem emptyVsFailureAmended (p : Json) (rs : List (Option Json))
    (net : String → Option (List Nat)) (H : List Nat → String)
    (ts : List Nat) (s : DState)
    (hp : getSplashItems p = .ok (some []))
    (hrs : ∀ r ∈ rs, r = none) :
    runModel [some p] net H ts s = (true, s) ∧
    fetchSplashList rs = .ok none ∧
    runModel rs net H ts s = (false, s) := by
  have hall : ∀ rs' : List (Option Json), (∀ r ∈ rs', r = none) →
      fetchSplashList rs' = .ok none := by
    intro rs'
    induction rs' with
    | nil => intro _; rfl
    | cons r rest ih =>
      intro hallc
      have hr : r = none := hallc r (by simp)
      subst hr
      exact ih fun x hx => hallc x (List.mem_cons_of_mem _ hx)
  have htr : truthy p = true := by
    cases p with
    | null => exact absurd hp (by simp [getSplashItems])
    | bool b => exact absurd hp (by simp [getSplashItems])
    | num n => exact absurd hp (by simp [getSplashItems])
    | str a => exact absurd hp (by simp [getSplashItems])
    | arr l => exact absurd hp (by simp [getSplashItems])
    | obj kvs =>
      cases hkvs : kvs.isEmpty with
      | true => exact absurd hp (by simp [getSplashItems, hkvs])
      | false => simp [truthy, hkvs]
  refine ⟨?_, hall rs hrs, ?_⟩
  · simp [runModel, fetchSplashList, htr, hp, runPass]
  · simp [runModel, hall rs hrs]

theorem emptyVsFailureAmendedWitness :
    (getSplashItems payloadNoShape = .ok (some []) ∧
        ∀ r ∈ ([none, none] : List (Option Json)), r = none) ∧
      (runModel [some payloadNoShape] netNone hashConst [] dInit = (true, dInit) ∧
        fetchSplashList [none, none] = .ok none ∧
        runModel [none, none] netNone hashConst [] dInit = (false, dInit)) :=
  ⟨⟨rfl, by simp⟩,
    emptyVsFailureAmended payloadNoShape [none, none] netNone hashConst [] dInit rfl
      (by simp)⟩

/-- Claim C7, counterexample: an item that raises inside the loop (a
non-dict, here the number 7) does not abort the run — the next
descriptor is still downloaded — but the claimed conversion to
`Failed` does not happen: the failed counter stays 0 instead of
becoming 1. -/
theorem faultIsolationCounterexample :
    (runPass (netConst [1]) hashConst [5, 6] [Json.num 7, recA] dInit).downloaded = 1 ∧
    (runPass (netConst [1]) hashConst [5, 6] [Json.num 7, recA] dInit).failed = 0 :=
  ⟨rfl, rfl⟩

/-- Claim C7, amended: a descriptor whose processing raises (or that
carries no usable string URL) is caught by the per-item handler and
merely logged: the state — every counter included — is unchanged and
the coordinator continues with the next descriptor. -/
theorem faultIsolationAmended (net : String → Option (List Nat))
    (H : List Nat → String) (t : Nat) (ts : List Nat) (item : Json)
    (rest : List Json) (s : DState) (h : itemUrl item = none) :
    runPass net H (t :: ts) (item :: rest) s = runPass net H ts rest s := by
  have hpi : processItem net H t item s = s := by
    unfold processItem
    rw [h]
  simp only [runPass, List.tail_cons, List.headD_cons]
  rw [hpi]

theorem faultIsolationAmendedWitness :
    itemUrl (Json.num 7) = none ∧
      runPass netNone hashConst [0] [Json.num 7] dInit =
        runPass netNone hashConst [] [] dInit :=
  ⟨rfl, faultIsolationAmended netNone hashConst 0 [] (Json.num 7) [] dInit rfl⟩

theorem barData : ("|" : String).data = ['|'] := rfl

theorem dropWhile_append_sep (p : Char → Bool) (d : Char) (hd : p d = false)
    (x y : List Char) : (x ++ d :: y).dropWhile p = x.dropWhile p ++ d :: y := by
  induction x with
  | nil => simp [List.dropWhile_cons, hd]
  | cons c x' ih =>
    by_cases hc : p c
    · simp [List.dropWhile_cons, hc, ih]
    · simp [List.dropWhile_cons, hc]

theorem stripR_append_sep (d : Char) (hd : isSpc d = false) (x y : List Char) :
    stripR (x ++ d :: y) = x ++ d :: stripR y := by
  unfold stripR
  rw [List.reverse_append]
  have h1 : (d :: y).reverse ++ x.reverse = y.reverse ++ d :: x.reverse := by
    rw [List.reverse_cons]
    simp
  rw [h1, dropWhile_append_sep isSpc d hd]
  rw [List.reverse_append]
  simp

theorem pyStrip_fix_parts (u : String) (hu : pyStrip u = u) :
    stripL u.data = u.data ∧ stripR u.data = u.data := by
  have hdata : stripR (stripL u.data) = u.data := congrArg String.data hu
  have hsub1 : List.Sublist (stripL u.data) u.data := List.dropWhile_sublist isSpc
  have hsub2 : List.Sublist (stripR (stripL u.data)) (stripL u.data) := by
    unfold stripR
    have h3 : List.Sublist ((stripL u.data).reverse.dropWhile isSpc)
        ((stripL u.data).reverse) :=
      List.dropWhile_sublist isSpc
    have h4 := h3.reverse
    simpa using h4
  have hlen : (stripL u.data).length = u.data.length := by
    have l1 := hsub1.length_le
    have l2 := hsub2.length_le
    rw [hdata] at l2
    omega
  have hL : stripL u.data = u.data := hsub1.eq_of_length hlen
  rw [hL] at hdata
  exact ⟨hL, hdata⟩

theorem parseLedger_pair (hsh u : String) (hclean : '|' ∉ hsh.data)
    (hu : pyStrip u = u) : parseLedgerLine (hsh ++ "|" ++ u) = some u := by
  obtain ⟨hL, hR⟩ := pyStrip_fix_parts u hu
  have hdata : (hsh ++ "|" ++ u).data = hsh.data ++ '|' :: u.data := by
    rw [strData_append, strData_append, barData]
    simp
  have hstrip : pyStrip (hsh ++ "|" ++ u) = ⟨stripL hsh.data ++ '|' :: u.data⟩ := by
    unfold pyStrip
    rw [hdata]
    have hsl : stripL (hsh.data ++ '|' :: u.data) = stripL hsh.data ++ '|' :: u.data := by
      unfold stripL
      exact dropWhile_append_sep isSpc '|' (by decide) hsh.data u.data
    rw [hsl, stripR_append_sep '|' (by decide), hR]
  unfold parseLedgerLine
  rw [hstrip]
  have hne : (⟨stripL hsh.data ++ '|' :: u.data⟩ : String) ≠ "" := by
    intro hh
    have hd := congrArg String.data hh
    simp at hd
  rw [if_neg hne]
  have hclean' : '|' ∉ stripL hsh.data := by
    intro hmm
    exact hclean ((List.dropWhile_sublist isSpc).subset hmm)
  have hsplit : splitFirstAux '|'
      ((⟨stripL hsh.data ++ '|' :: u.data⟩ : String).data)
      = some (stripL hsh.data, u.data) :=
    (splitFirst_some_iff '|' _ _ _).mpr ⟨rfl, hclean'⟩
  rw [hsplit]
  have heta : (⟨u.data⟩ : String) = u := rfl
  show some (pyStrip (⟨u.data⟩ : String)) = some u
  rw [heta, hu]

theorem loadUrlSet_append (L L' : List String) :
    loadUrlSet (L ++ L') = loadUrlSet L ++ loadUrlSet L' := by
  unfold loadUrlSet
  exact List.filterMap_append L L' parseLedgerLine

theorem downloadImage_short (net : String → Option (List Nat))
    (H : List Nat → String) (t : Nat) (url : String) (s : DState)
    (h : url = "" ∨ url.length < 10) : downloadImage net H t url s = s := by
  unfold downloadImage
  rw [if_pos h]

theorem downloadImage_skip (net : String → Option (List Nat))
    (H : List Nat → String) (t : Nat) (url : String) (s : DState)
    (hval : ¬(url = "" ∨ url.length < 10)) (hmem : url ∈ s.urlSet) :
    downloadImage net H t url s = { s with skipped := s.skipped + 1 } := by
  unfold downloadImage
  rw [if_neg hval, if_pos hmem]

theorem downloadImage_none (net : String → Option (List Nat))
    (H : List Nat → String) (t : Nat) (url : String) (s : DState)
    (hval : ¬(url = "" ∨ url.length < 10)) (hmem : url ∉ s.urlSet)
    (hnone : net (cacheBust url t) = none) :
    downloadImage net H t url s =
      { s with netCalls := s.netCalls + 1, failed := s.failed + 1 } := by
  unfold downloadImage
  rw [if_neg hval, if_neg hmem, hnone]

theorem strStarts_fname (p a c : String) : strStarts p (p ++ a ++ c) = true := by
  rw [strAppend_assoc]
  exact strStarts_self_append _ _

theorem processItem_none (net : String → Option (List Nat)) (H : List Nat → String)
    (t : Nat) (item : Json) (s : DState) (h : itemUrl item = none) :
    processItem net H t item s = s := by
  unfold processItem
  rw [h]

theorem DLe_refl (s : DState) : DLe s s :=
  ⟨fun _ h => h, fun _ h => h, [], by simp⟩

theorem DLe_trans {a b c : DState} (h1 : DLe a b) (h2 : DLe b c) : DLe a c := by
  obtain ⟨u1, s1, L, hL⟩ := h1
  obtain ⟨u2, s2, M, hM⟩ := h2
  exact ⟨fun x hx => u2 x (u1 x hx), fun x hx => s2 x (s1 x hx), L ++ M,
    by rw [hM, hL, List.append_assoc]⟩

theorem downloadImage_DLe (net : String → Option (List Nat))
    (H : List Nat → String) (t : Nat) (url : String) (s : DState) :
    DLe s (downloadImage net H t url s) := by
  by_cases hval : url = "" ∨ url.length < 10
  · rw [downloadImage_short net H t url s hval]
    exact DLe_refl s
  · by_cases hmem : url ∈ s.urlSet
    · rw [downloadImage_skip net H t url s hval hmem]
      exact ⟨fun x hx => hx, fun x hx => hx, [], by simp⟩
    · cases hnetv : net (cacheBust url t) with
      | none =>
        rw [downloadImage_none net H t url s hval hmem hnetv]
        exact ⟨fun x hx => hx, fun x hx => hx, [], by simp⟩
      | some b =>
        rw [downloadImage_eq_some net H t url s b hval hmem hnetv]
        split
        · rw [saveUrl_true_eq]
          exact ⟨fun x hx => List.mem_append_left _ hx, fun x hx => hx,
            [H b ++ "|" ++ cacheBust url t], rfl⟩
        · rw [saveUrl_true_eq]
          exact ⟨fun x hx => List.mem_append_left _ hx,
            fun x hx => List.mem_append_left _ hx,
            [H b ++ "|" ++ cacheBust url t], rfl⟩

theorem processItem_DLe (net : String → Option (List Nat)) (H : List Nat → String)
    (t : Nat) (item : Json) (s : DState) : DLe s (processItem net H t item s) := by
  cases hiu : itemUrl item with
  | none =>
    rw [processItem_none net H t item s hiu]
    exact DLe_refl s
  | some u =>
    rw [processItem_some net H t item s u hiu]
    exact downloadImage_DLe net H t u s

theorem Inv_save {s : DState} (hInv : Inv s) (hsh burl : String)
    (hclean : '|' ∉ hsh.data) (s' : DState)
    (hset : s'.urlSet = s.urlSet ++ [burl])
    (hled : s'.ledger = s.ledger ++ [hsh ++ "|" ++ burl]) : Inv s' := by
  intro v hv hm
  rw [hset] at hm
  rw [hled, loadUrlSet_append]
  rcases List.mem_append.mp hm with hold | hnew
  · exact List.mem_append_left _ (hInv v hv hold)
  · have hveq : v = burl := by simpa using hnew
    subst hveq
    refine List.mem_append_right _ ?_
    have hp := parseLedger_pair hsh v hclean hv
    simp [loadUrlSet, hp]

theorem downloadImage_inv (net : String → Option (List Nat))
    (H : List Nat → String) (t : Nat) (url : String) (s : DState)
    (hH : HashClean H) (hInv : Inv s) :
    Inv (downloadImage net H t url s) := by
  by_cases hval : url = "" ∨ url.length < 10
  · rw [downloadImage_short net H t url s hval]
    exact hInv
  · by_cases hmem : url ∈ s.urlSet
    · rw [downloadImage_skip net H t url s hval hmem]
      intro v hv hm
      exact hInv v hv hm
    · cases hnetv : net (cacheBust url t) with
      | none =>
        rw [downloadImage_none net H t url s hval hmem hnetv]
        intro v hv hm
        exact hInv v hv hm
      | some b =>
        rw [downloadImage_eq_some net H t url s b hval hmem hnetv]
        split
        · rw [saveUrl_true_eq]
          exact Inv_save hInv (H b) (cacheBust url t) (hH b) _ rfl rfl
        · rw [saveUrl_true_eq]
          exact Inv_save hInv (H b) (cacheBust url t) (hH b) _ rfl rfl

theorem urlDone_mono {net : String → Option (List Nat)} {H : List Nat → String}
    {s s' : DState} {u : String} (hle : DLe s s') (h : UrlDone net H s u) :
    UrlDone net H s' u := by
  obtain ⟨h1, h2, L, hL⟩ := hle
  rcases h with hmem | himp
  · left
    rw [hL, loadUrlSet_append]
    exact List.mem_append_left _ hmem
  · right
    intro b hb
    obtain ⟨f, hf, hfp⟩ := himp b hb
    exact ⟨f, h2 f hf, hfp⟩

theorem downloadImage_done (net : String → Option (List Nat))
    (H : List Nat → String) (t : Nat) (url : String) (s : DState)
    (hnet : BustInvariant net) (hval : ¬(url = "" ∨ url.length < 10))
    (hstrip : pyStrip url = url) (hInv : Inv s) :
    UrlDone net H (downloadImage net H t url s) url := by
  by_cases hmem : url ∈ s.urlSet
  · rw [downloadImage_skip net H t url s hval hmem]
    left
    exact hInv url hstrip hmem
  · cases hnetv : net (cacheBust url t) with
    | none =>
      rw [downloadImage_none net H t url s hval hmem hnetv]
      right
      intro b hb
      exfalso
      have hi := hnet url 0 t
      rw [hb, hnetv] at hi
      simp at hi
    | some b =>
      have hbeq : ∀ b0, net (cacheBust url 0) = some b0 → b0 = b := by
        intro b0 hb0
        have hi := hnet url 0 t
        rw [hb0, hnetv] at hi
        exact Option.some.inj hi
      rw [downloadImage_eq_some net H t url s b hval hmem hnetv]
      split
      · rename_i hany
        rw [saveUrl_true_eq]
        right
        intro b0 hb0
        obtain ⟨f, hf, hfp⟩ := List.any_eq_true.mp hany
        refine ⟨f, hf, ?_⟩
        rw [hbeq b0 hb0]
        exact hfp
      · rw [saveUrl_true_eq]
        right
        intro b0 hb0
        rw [hbeq b0 hb0]
        refine ⟨H b ++ "_" ++ toString t ++ "_splash.jpg",
          List.mem_append_right _ (by simp), ?_⟩
        exact strStarts_fname (H b ++ "_") (toString t) "_splash.jpg"

theorem runPass_post (net : String → Option (List Nat)) (H : List Nat → String)
    (hnet : BustInvariant net) (hH : HashClean H) :
    ∀ (L : List Json) (ts : List Nat) (s : DState), Inv s → GoodItems net L →
      Inv (runPass net H ts L s) ∧ DLe s (runPass net H ts L s) ∧
      ∀ item ∈ L, ∀ u, itemUrl item = some u →
        UrlDone net H (runPass net H ts L s) u := by
  intro L
  induction L with
  | nil =>
    intro ts s hInv _
    exact ⟨hInv, DLe_refl s, by simp⟩
  | cons i L' ih =>
    intro ts s hInv hgood
    have hgood' : GoodItems net L' :=
      fun item hm u hu => hgood item (List.mem_cons_of_mem _ hm) u hu
    have hrw : runPass net H ts (i :: L') s
        = runPass net H ts.tail L' (processItem net H (ts.headD 0) i s) := rfl
    cases hiu : itemUrl i with
    | none =>
      have hs1 : processItem net H (ts.headD 0) i s = s :=
        processItem_none net H (ts.headD 0) i s hiu
      rw [hrw, hs1]
      obtain ⟨ha, hb, hc⟩ := ih ts.tail s hInv hgood'
      refine ⟨ha, hb, ?_⟩
      intro item hm u hu
      rcases List.mem_cons.mp hm with rfl | hm'
      · rw [hiu] at hu
        exact absurd hu (by simp)
      · exact hc item hm' u hu
    | some u0 =>
      have hs1 : processItem net H (ts.headD 0) i s
          = downloadImage net H (ts.headD 0) u0 s :=
        processItem_some net H (ts.headD 0) i s u0 hiu
      obtain ⟨hval, hstrip, hbex⟩ := hgood i (by simp) u0 hiu
      have hInv1 : Inv (downloadImage net H (ts.headD 0) u0 s) :=
        downloadImage_inv net H (ts.headD 0) u0 s hH hInv
      have hdone1 : UrlDone net H (downloadImage net H (ts.headD 0) u0 s) u0 :=
        downloadImage_done net H (ts.headD 0) u0 s hnet hval hstrip hInv
      have hDLe1 : DLe s (downloadImage net H (ts.headD 0) u0 s) :=
        downloadImage_DLe net H (ts.headD 0) u0 s
      obtain ⟨ha, hb, hc⟩ :=
        ih ts.tail (downloadImage net H (ts.headD 0) u0 s) hInv1 hgood'
      rw [hrw, hs1]
      refine ⟨ha, DLe_trans hDLe1 hb, ?_⟩
      intro item hm u hu
      rcases List.mem_cons.mp hm with rfl | hm'
      · rw [hiu] at hu
        obtain rfl : u0 = u := Option.some.inj hu
        exact urlDone_mono hb hdone1
      · exact hc item hm' u hu

theorem runPass_second (net : String → Option (List Nat)) (H : List Nat → String)
    (hnet : BustInvariant net) (sRef : DState) :
    ∀ (L : List Json) (ts : List Nat) (s : DState),
      GoodItems net L →
      (∀ item ∈ L, ∀ u, itemUrl item = some u → UrlDone net H sRef u) →
      (∀ v ∈ loadUrlSet sRef.ledger, v ∈ s.urlSet) →
      (∀ f ∈ sRef.store, f ∈ s.store) →
      (runPass net H ts L s).downloaded = s.downloaded ∧
      (runPass net H ts L s).failed = s.failed ∧
      (runPass net H ts L s).skipped = s.skipped + (L.filterMap itemUrl).length := by
  intro L
  induction L with
  | nil =>
    intro ts s _ _ _ _
    exact ⟨rfl, rfl, by simp [runPass]⟩
  | cons i L' ih =>
    intro ts s hgood hpre hub hstore
    have hgood' : GoodItems net L' :=
      fun item hm u hu => hgood item (List.mem_cons_of_mem _ hm) u hu
    have hpre' : ∀ item ∈ L', ∀ u, itemUrl item = some u → UrlDone net H sRef u :=
      fun item hm u hu => hpre item (List.mem_cons_of_mem _ hm) u hu
    have hrw : runPass net H ts (i :: L') s
        = runPass net H ts.tail L' (processItem net H (ts.headD 0) i s) := rfl
    cases hiu : itemUrl i with
    | none =>
      rw [hrw, processItem_none net H (ts.headD 0) i s hiu]
      obtain ⟨ha, hb, hc⟩ := ih ts.tail s hgood' hpre' hub hstore
      refine ⟨ha, hb, ?_⟩
      rw [hc]
      simp [List.filterMap_cons, hiu]
    | some u0 =>
      obtain ⟨hval, hstrip, b0, hb0⟩ := hgood i (by simp) u0 hiu
      have hcount : ((i :: L').filterMap itemUrl).length
          = (L'.filterMap itemUrl).length + 1 := by
        simp [List.filterMap_cons, hiu]
      by_cases hmem : u0 ∈ s.urlSet
      · have hs1 : processItem net H (ts.headD 0) i s
            = { s with skipped := s.skipped + 1 } := by
          rw [processItem_some net H (ts.headD 0) i s u0 hiu,
            downloadImage_skip net H (ts.headD 0) u0 s hval hmem]
        rw [hrw, hs1]
        obtain ⟨ha, hb, hc⟩ := ih ts.tail { s with skipped := s.skipped + 1 }
          hgood' hpre' (fun v hv => hub v hv) (fun f hf => hstore f hf)
        refine ⟨ha, hb, ?_⟩
        rw [hc, hcount]
        show s.skipped + 1 + (L'.filterMap itemUrl).length
          = s.skipped + ((L'.filterMap itemUrl).length + 1)
        omega
      · have hnotled : u0 ∉ loadUrlSet sRef.ledger := fun hh => hmem (hub u0 hh)
        have hdone0 := hpre i (by simp) u0 hiu
        rcases hdone0 with hl | hr
        · exact absurd hl hnotled
        obtain ⟨f, hf, hfp⟩ := hr b0 hb0
        have hnetv : net (cacheBust u0 (ts.headD 0)) = some b0 := by
          have hi := hnet u0 (ts.headD 0) 0
          rw [hb0] at hi
          exact hi
        have hany : s.store.any (fun g => strStarts (H b0 ++ "_") g) = true :=
          List.any_eq_true.mpr ⟨f, hstore f hf, hfp⟩
        have hs1 : processItem net H (ts.headD 0) i s
            = ({ urlSet := s.urlSet ++ [cacheBust u0 (ts.headD 0)],
                 store := s.store,
                 ledger := s.ledger ++ [H b0 ++ "|" ++ cacheBust u0 (ts.headD 0)],
                 downloaded := s.downloaded, skipped := s.skipped + 1,
                 failed := s.failed, netCalls := s.netCalls + 1 } : DState) := by
          rw [processItem_some net H (ts.headD 0) i s u0 hiu,
            downloadImage_eq_some net H (ts.headD 0) u0 s b0 hval hmem hnetv,
            if_pos hany, saveUrl_true_eq]
        rw [hrw, hs1]
        obtain ⟨ha, hb, hc⟩ := ih ts.tail
          ({ urlSet := s.urlSet ++ [cacheBust u0 (ts.headD 0)],
             store := s.store,
             ledger := s.ledger ++ [H b0 ++ "|" ++ cacheBust u0 (ts.headD 0)],
             downloaded := s.downloaded, skipped := s.skipped + 1,
             failed := s.failed, netCalls := s.netCalls + 1 } : DState) hgood' hpre'
          (fun v hv => List.mem_append_left _ (hub v hv))
          (fun f0 hf0 => hstore f0 hf0)
        refine ⟨ha, hb, ?_⟩
        rw [hc, hcount]
        show s.skipped + 1 + (L'.filterMap itemUrl).length
          = s.skipped + ((L'.filterMap itemUrl).length + 1)
        omega

/-- Claim C1: pipeline idempotence.  Assuming the CDN serves the same
body regardless of the cache-busting parameter, every descriptor URL is
well-formed, strip-fixed and fetchable, digests contain no `|`, and the
starting in-memory set is covered by the starting ledger (as
`__init__`/`_load_url_set` guarantee), a second run over the same
descriptor list — starting from the ledger and store left by a first
complete run, with fresh counters — downloads nothing and fails
nothing: every asset is skipped, by the URL-ledger membership test or
by the duplicate-content check, so `downloaded = 0` and `skipped`
equals the number of assets. -/
theorem secondRunZeroDownloads (net : String → Option (List Nat))
    (H : List Nat → String) (items : List Json) (ts1 ts2 : List Nat) (s0 : DState)
    (hnet : BustInvariant net) (hH : HashClean H)
    (hgood : GoodItems net items) (hload : Inv s0) :
    (runPass net H ts2 items
        { urlSet := loadUrlSet (runPass net H ts1 items s0).ledger,
          store := (runPass net H ts1 items s0).store,
          ledger := (runPass net H ts1 items s0).ledger,
          downloaded := 0, skipped := 0, failed := 0, netCalls := 0 }).downloaded
        = 0 ∧
    (runPass net H ts2 items
        { urlSet := loadUrlSet (runPass net H ts1 items s0).ledger,
          store := (runPass net H ts1 items s0).store,
          ledger := (runPass net H ts1 items s0).ledger,
          downloaded := 0, skipped := 0, failed := 0, netCalls := 0 }).failed = 0 ∧
    (runPass net H ts2 items
        { urlSet := loadUrlSet (runPass net H ts1 items s0).ledger,
          store := (runPass net H ts1 items s0).store,
          ledger := (runPass net H ts1 items s0).ledger,
          downloaded := 0, skipped := 0, failed := 0, netCalls := 0 }).skipped
        = (items.filterMap itemUrl).length := by
  obtain ⟨hInv1, hDLe1, hdone⟩ := runPass_post net H hnet hH items ts1 s0 hload hgood
  obtain ⟨ha, hb, hc⟩ := runPass_second net H hnet (runPass net H ts1 items s0)
    items ts2
    { urlSet := loadUrlSet (runPass net H ts1 items s0).ledger,
      store := (runPass net H ts1 items s0).store,
      ledger := (runPass net H ts1 items s0).ledger,
      downloaded := 0, skipped := 0, failed := 0, netCalls := 0 }
    hgood hdone (fun v hv => hv) (fun f hf => hf)
  refine ⟨ha, hb, ?_⟩
  rw [hc]
  exact Nat.zero_add _

set_option maxHeartbeats 2000000 in
theorem secondRunZeroDownloadsWitness :
    (runPass (netConst [1]) hashConst [5] [recA]
        { urlSet := loadUrlSet (runPass (netConst [1]) hashConst [4] [recA] dInit).ledger,
          store := (runPass (netConst [1]) hashConst [4] [recA] dInit).store,
          ledger := (runPass (netConst [1]) hashConst [4] [recA] dInit).ledger,
          downloaded := 0, skipped := 0, failed := 0, netCalls := 0 }).downloaded
        = 0 ∧
    (runPass (netConst [1]) hashConst [5] [recA]
        { urlSet := loadUrlSet (runPass (netConst [1]) hashConst [4] [recA] dInit).ledger,
          store := (runPass (netConst [1]) hashConst [4] [recA] dInit).store,
          ledger := (runPass (netConst [1]) hashConst [4] [recA] dInit).ledger,
          downloaded := 0, skipped := 0, failed := 0, netCalls := 0 }).failed = 0 ∧
    (runPass (netConst [1]) hashConst [5] [recA]
        { urlSet := loadUrlSet (runPass (netConst [1]) hashConst [4] [recA] dInit).ledger,
          store := (runPass (netConst [1]) hashConst [4] [recA] dInit).store,
          ledger := (runPass (netConst [1]) hashConst [4] [recA] dInit).ledger,
          downloaded := 0, skipped := 0, failed := 0, netCalls := 0 }).skipped
        = (([recA] : List Json).filterMap itemUrl).length :=
  secondRunZeroDownloads (netConst [1]) hashConst [recA] [4] [5] dInit
    (by intro u t t'; show some [1] = some [1]; rfl)
    (by intro b; show '|' ∉ ("cafe" : String).data; decide)
    (by
      intro item hmem u hu
      have hitem : item = recA := by simpa using hmem
      subst hitem
      have h2 : itemUrl recA = some "https://example.com/a.png" := rfl
      rw [h2] at hu
      obtain rfl : "https://example.com/a.png" = u := Option.some.inj hu
      refine ⟨by decide, by decide, [1], rfl⟩)
    (by
      intro v _ hv
      simp [dInit] at hv)

theorem retryBoundBackoffAmendedWitness :
    ((∀ i, wNetReqFail i = .reqErr) ∧ ∀ i, wNetBodyFail i = .bodyErr [42]) ∧
      (((wDownloadImage wNetReqFail "alb" "https://h/i.jpg" wInit).attempts =
          wInit.attempts + MAX_RETRIES ∧
        (wDownloadImage wNetReqFail "alb" "https://h/i.jpg" wInit).failed =
          wInit.failed + 1 ∧
        (wDownloadImage wNetReqFail "alb" "https://h/i.jpg" wInit).files =
          wInit.files ∧
        (wDownloadImage wNetReqFail "alb" "https://h/i.jpg" wInit).urlLines =
          wInit.urlLines ∧
        (wDownloadImage wNetReqFail "alb" "https://h/i.jpg" wInit).downloaded =
          wInit.downloaded ∧
        (wDownloadImage wNetReqFail "alb" "https://h/i.jpg" wInit).sleeps =
          wInit.sleeps ++
            (List.range MAX_RETRIES).map (fun i => RETRY_DELAY * (i + 1))) ∧
      (List.Chain' (· < ·)
          ((List.range MAX_RETRIES).map fun i => RETRY_DELAY * (i + 1)) ∧
        ∀ d ∈ (List.range MAX_RETRIES).map (fun i => RETRY_DELAY * (i + 1)),
          0 < d) ∧
      ((wDownloadImage wNetBodyFail "alb" "https://h/i.jpg" wInit).attempts =
          wInit.attempts + MAX_RETRIES ∧
        (wDownloadImage wNetBodyFail "alb" "https://h/i.jpg" wInit).failed =
          wInit.failed + 1 ∧
        (wDownloadImage wNetBodyFail "alb" "https://h/i.jpg" wInit).downloaded =
          wInit.downloaded ∧
        (wDownloadImage wNetBodyFail "alb" "https://h/i.jpg" wInit).urlLines =
          wInit.urlLines ∧
        (wDownloadImage wNetBodyFail "alb" "https://h/i.jpg" wInit).sleeps =
          wInit.sleeps ++
            (List.range MAX_RETRIES).map (fun i => RETRY_DELAY * (i + 1)) ∧
        (wDownloadImage wNetBodyFail "alb" "https://h/i.jpg" wInit).files =
          wInit.files ++
            [(wImageName "https://h/i.jpg", (fun _ : Nat => ([42] : List Nat))
              (MAX_RETRIES - 1))])) :=
  ⟨⟨fun _ => rfl, fun _ => rfl⟩,
    retryBoundBackoffAmended wNetReqFail wNetBodyFail "alb" "https://h/i.jpg" wInit
      (fun _ => [42]) (fun _ => rfl) (fun _ => rfl) (by decide)⟩

end BiliSplash
